import Mathlib

/-!
Shallow embedding of `src/whatsupgithub/__main__.py` (whatsupgithub).

Remote GitHub reads are modelled as fields of a `Repo` handle that either
succeed with a value or fail with a `GHError` (a Python exception class).
Timestamps are modelled as natural numbers (seconds); elapsed days are a
truncated division, whose exact value no claim under verification depends on.
-/

set_option maxHeartbeats 1000000

namespace Whatsup

/-- Python exception classes that the source can raise or catch. -/
inductive GHError where
  | notFound
  | permission
  | transient
  | rateLimit
  | valueError
  | indexError
  | attributeError
  deriving DecidableEq, Repr

/-- A comment on an issue: `comment.user.login` and `comment.created_at`. -/
structure IssueComment where
  user : String
  created_at : Nat
  deriving DecidableEq, Repr

/-- An issue: `issue.user.login`, `issue.created_at`, `issue.updated_at`, and
the result of `issue.get_comments()`. -/
structure Issue where
  user : String
  created_at : Nat
  updated_at : Nat
  comments : List IssueComment
  deriving DecidableEq, Repr

/-- A commit. `author` is `none` when `commit.author` is Python's `None`, in
which case `commit.author.login` raises `AttributeError`. `last_modified` is
the timestamp that `github_to_timestamp` parses from the commit. -/
structure Commit where
  author : Option String
  last_modified : Nat
  deriving DecidableEq, Repr

/-- A repository handle. Plain attributes are plain fields; each remote read
(`get_contents`, `get_pulls`, `get_commits`, `get_contributors`,
`get_issues`) is a field returning either its value or the exception it
raises. Reads are deterministic within a run, so calling `get_commits` twice
(as `repo_info_to_table` does) yields the same result both times. Pulls carry
no data the source inspects beyond their count, contributors are read only
for their `login`. -/
structure Repo where
  name : String
  description : Option String
  url : String
  open_issues_count : Nat
  get_contents : String → Except GHError Unit
  get_pulls : Except GHError (List Unit)
  get_commits : Except GHError (List Commit)
  get_contributors : Except GHError (List String)
  get_issues : Except GHError (List Issue)

/-- `has_file(repo, filename)`: `try: repo.get_contents(filename); return True
except Exception: return False`. Total: every exception is folded into
`false`. -/
def has_file (repo : Repo) (filename : String) : Bool :=
  match repo.get_contents filename with
  | .ok _ => true
  | .error _ => false

/-- Whole days elapsed from timestamp `ts` to the collection moment `now`,
i.e. `(d.today() - d).days`. -/
def days_between (now ts : Nat) : Nat := (now - ts) / 86400

/-- One row of the metrics table produced by `repo_info_to_table`.
`days_since_last_issue = none` models the `"N/A"` sentinel. -/
structure MetricsRow where
  name : String
  description : Option String
  url : String
  license : Bool
  readme : Bool
  issues : Nat
  pulls : Nat
  commits : Nat
  contributors : List String
  days_since_last_issue : Option Nat
  days_since_last_commit : Nat
  deriving DecidableEq, Repr

/-- Body of the `for repo in tqdm(repos)` loop of `repo_info_to_table`,
building one row. Reads happen in source order: pulls, commits (for
`totalCount`), contributors, then issues; the `try`/`except ValueError`
around `max([i.updated_at for i in repo.get_issues()])` catches only the
empty-`max` `ValueError` (a failing `get_issues` propagates); finally
`repo.get_commits()[0]` raises `IndexError` on an empty commit list, which
nothing catches. -/
def repo_info_row (now : Nat) (repo : Repo) : Except GHError MetricsRow :=
  match repo.get_pulls with
  | .error e => .error e
  | .ok ps =>
  match repo.get_commits with
  | .error e => .error e
  | .ok cs =>
  match repo.get_contributors with
  | .error e => .error e
  | .ok us =>
  match repo.get_issues with
  | .error e => .error e
  | .ok is =>
  let dsli : Option Nat :=
    match is with
    | [] => none
    | i :: rest =>
      some (days_between now ((rest.map (fun j => j.updated_at)).foldl Nat.max i.updated_at))
  match cs with
  | [] => .error .indexError
  | c :: _ =>
    .ok { name := repo.name
          description := repo.description
          url := repo.url
          license := has_file repo "LICENSE"
          readme := has_file repo "README.md"
          issues := repo.open_issues_count
          pulls := ps.length
          commits := cs.length
          contributors := us
          days_since_last_issue := dsli
          days_since_last_commit := days_between now c.last_modified }

/-- `repo_info_to_table(repos)`: the sequential loop appending one row per
repository; an uncaught exception while building a row aborts the whole
call, so no table is returned at all. -/
def repo_info_to_table (now : Nat) : List Repo → Except GHError (List MetricsRow)
  | [] => .ok []
  | r :: rs =>
    match repo_info_row now r with
    | .error e => .error e
    | .ok row =>
      match repo_info_to_table now rs with
      | .error e => .error e
      | .ok rest => .ok (row :: rest)

/-- Kind of an event record: the `type` column of the extractor's output. -/
inductive EventKind where
  | commit
  | issue
  | comment
  deriving DecidableEq, Repr

/-- One row of `get_all_commit_issue_comments_info`: `[user, timestamp, type]`. -/
structure Event where
  user : String
  timestamp : Nat
  kind : EventKind
  deriving DecidableEq, Repr

/-- Body of the commit loop: `try` append `[author.login, timestamp,
"commit"]` `except AttributeError: pass` — a `none` author raises
`AttributeError` at `commit.author.login` and the commit is skipped. -/
def commit_step (rows : List Event) (c : Commit) : List Event :=
  match c.author with
  | none => rows
  | some a => rows ++ [{ user := a, timestamp := c.last_modified, kind := .commit }]

/-- Body of the comment loop: append `[comment.user.login, created_at, "comment"]`. -/
def comment_step (rows : List Event) (c : IssueComment) : List Event :=
  rows ++ [{ user := c.user, timestamp := c.created_at, kind := .comment }]

/-- Body of the issue loop: append the issue's creation row, then loop over
its comments. -/
def issue_step (rows : List Event) (i : Issue) : List Event :=
  i.comments.foldl comment_step
    (rows ++ [{ user := i.user, timestamp := i.created_at, kind := .issue }])

/-- `get_all_commit_issue_comments_info(repo)`: first the commit pass, then
the issue/comment pass, both appending to the same `rows` list; a failing
`get_commits` or `get_issues` propagates. -/
def get_all_commit_issue_comments_info (repo : Repo) : Except GHError (List Event) :=
  match repo.get_commits with
  | .error e => .error e
  | .ok cs =>
    match repo.get_issues with
    | .error e => .error e
    | .ok is => .ok (is.foldl issue_step (cs.foldl commit_step []))

/-- The commit pass of the extractor, written structurally: one commit-kind
event per commit with a resolvable author, in enumeration order. -/
def commitPass (cs : List Commit) : List Event :=
  cs.filterMap (fun c =>
    c.author.map (fun a => { user := a, timestamp := c.last_modified, kind := .commit }))

/-- The issue/comment pass of the extractor, written structurally: per issue,
its creation event immediately followed by its comment events, in
enumeration order. -/
def issuePass (is : List Issue) : List Event :=
  is.flatMap (fun i =>
    { user := i.user, timestamp := i.created_at, kind := EventKind.issue } ::
      i.comments.map (fun c =>
        { user := c.user, timestamp := c.created_at, kind := EventKind.comment }))

/-- The `contributors` Python dict: insertion-ordered association list from
login to list of channel tags. -/
def CMap := List (String × List String)

/-- `login in contributors` (dict membership). -/
def dictMem : CMap → String → Bool
  | [], _ => false
  | p :: rest, k => if p.1 = k then true else dictMem rest k

/-- `contributors[login]`, defaulting to `[]` when absent (the source only
reads present keys). -/
def dictGet : CMap → String → List String
  | [], _ => []
  | p :: rest, k => if p.1 = k then p.2 else dictGet rest k

/-- `contributors[login] = v`: replace the value at an existing key in
place, else append a new entry (Python dict insertion order). -/
def dictSet : CMap → String → List String → CMap
  | [], k, v => [(k, v)]
  | p :: rest, k, v => if p.1 = k then (k, v) :: rest else p :: dictSet rest k v

/-- The tagging pattern of `get_all_contributors`: `if login not in
contributors: contributors[login] = [tag]` else `if tag not in
contributors[login]: contributors[login].append(tag)`. -/
def addTag (m : CMap) (k tag : String) : CMap :=
  if dictMem m k then
    if tag ∈ dictGet m k then m else dictSet m k (dictGet m k ++ [tag])
  else dictSet m k [tag]

/-- Body of the code-contributor loop: `contributors[login] = ["code"]`. -/
def code_step (m : CMap) (u : String) : CMap := dictSet m u ["code"]

/-- Body of the comment loop of `get_all_contributors`. -/
def contrib_comment_step (m : CMap) (c : IssueComment) : CMap :=
  addTag m c.user "comments"

/-- Body of the issue loop of `get_all_contributors`: tag the opener with
`"issues"`, then loop over the issue's comments. -/
def contrib_issue_step (m : CMap) (i : Issue) : CMap :=
  i.comments.foldl contrib_comment_step (addTag m i.user "issues")

/-- `get_all_contributors(repo, inc_non_code)`: code contributors first,
then (only when `inc_non_code`) a walk of issues and their comments. -/
def get_all_contributors (repo : Repo) (inc_non_code : Bool) : Except GHError CMap :=
  match repo.get_contributors with
  | .error e => .error e
  | .ok us =>
    let m := us.foldl code_step []
    if inc_non_code then
      match repo.get_issues with
      | .error e => .error e
      | .ok is => .ok (is.foldl contrib_issue_step m)
    else .ok m

/-- The source's existence check in `--all` mode is `Path.isfile(path)`, but
`pathlib.Path` has no attribute `isfile` (the method is named `is_file`), so
the attribute lookup raises `AttributeError` before the path or the
filesystem (`fs`, the set of existing files) is ever consulted. -/
def path_isfile (_fs : List String) (_p : String) : Except GHError Bool :=
  .error .attributeError

/-- The `--all` branch of `main`: for each repository, check whether
`<out_folder>/<name>.csv` exists and skip if so, else run the extractor and
record the written file. Returns the list of (filename, table) pairs
written; an uncaught exception aborts the whole loop. -/
def all_mode_run (fs : List String) (out_folder : String) :
    List Repo → Except GHError (List (String × List Event))
  | [] => .ok []
  | r :: rs =>
    match path_isfile fs (out_folder ++ "/" ++ r.name ++ ".csv") with
    | .error e => .error e
    | .ok true => all_mode_run fs out_folder rs
    | .ok false =>
      match get_all_commit_issue_comments_info r with
      | .error e => .error e
      | .ok tbl =>
        match all_mode_run fs out_folder rs with
        | .error e => .error e
        | .ok rest => .ok ((out_folder ++ "/" ++ r.name ++ ".csv", tbl) :: rest)

/-! Concrete sample data, used by the witness and counterexample theorems. -/

/-- A comment by bob. -/
def cmtBob : IssueComment := { user := "bob", created_at := 30 }

/-- A comment by alice. -/
def cmtAlice : IssueComment := { user := "alice", created_at := 40 }

/-- An issue opened by bob, commented on by bob and alice. -/
def issBob : Issue :=
  { user := "bob", created_at := 20, updated_at := 50, comments := [cmtBob, cmtAlice] }

/-- A repository with one commit, no issues, a LICENSE but no README. -/
def rOk : Repo :=
  { name := "R1"
    description := some "demo"
    url := "u1"
    open_issues_count := 0
    get_contents := fun f => if f = "LICENSE" then .ok () else .error .notFound
    get_pulls := .ok []
    get_commits := .ok [{ author := some "alice", last_modified := 100 }]
    get_contributors := .ok ["alice"]
    get_issues := .ok [] }

/-- A repository with no commits and no issues. -/
def rNoCommits : Repo :=
  { name := "R0"
    description := none
    url := "u0"
    open_issues_count := 0
    get_contents := fun _ => .error .notFound
    get_pulls := .ok []
    get_commits := .ok []
    get_contributors := .ok []
    get_issues := .ok [] }

/-- A repository whose pull enumeration fails with a rate-limit error. -/
def rRateLimited : Repo :=
  { name := "R2"
    description := none
    url := "u2"
    open_issues_count := 1
    get_contents := fun _ => .ok ()
    get_pulls := .error .rateLimit
    get_commits := .ok [{ author := some "alice", last_modified := 100 }]
    get_contributors := .ok ["alice"]
    get_issues := .ok [issBob] }

/-- A repository where no commit author resolves, with one issue. -/
def rNoAuthors : Repo :=
  { name := "R3"
    description := none
    url := "u3"
    open_issues_count := 1
    get_contents := fun _ => .error .notFound
    get_pulls := .ok []
    get_commits := .ok [{ author := none, last_modified := 5 }, { author := none, last_modified := 6 }]
    get_contributors := .ok []
    get_issues := .ok [issBob] }

/-- A repository with a resolvable and an unresolvable commit author, one
issue with two comments, and alice as sole code contributor. -/
def rMixed : Repo :=
  { name := "R4"
    description := some "d4"
    url := "u4"
    open_issues_count := 1
    get_contents := fun f => if f = "README.md" then .ok () else .error .permission
    get_pulls := .ok [(), ()]
    get_commits := .ok [{ author := some "alice", last_modified := 9 }, { author := none, last_modified := 8 }]
    get_contributors := .ok ["alice"]
    get_issues := .ok [issBob] }

/-! Helper lemmas about the extractor's accumulator folds. -/

lemma foldl_comment_step (cs : List IssueComment) (init : List Event) :
    cs.foldl comment_step init =
      init ++ cs.map (fun c =>
        { user := c.user, timestamp := c.created_at, kind := EventKind.comment }) := by
  induction cs generalizing init with
  | nil => simp
  | cons c cs ih => simp [comment_step, ih]

lemma foldl_commit_step (cs : List Commit) (init : List Event) :
    cs.foldl commit_step init = init ++ commitPass cs := by
  induction cs generalizing init with
  | nil => simp [commitPass]
  | cons c cs ih =>
    cases h : c.author with
    | none => simp [commit_step, h, ih, commitPass]
    | some a => simp [commit_step, h, ih, commitPass]

lemma foldl_issue_step (is : List Issue) (init : List Event) :
    is.foldl issue_step init = init ++ issuePass is := by
  induction is generalizing init with
  | nil => simp [issuePass]
  | cons i is ih => simp [issue_step, foldl_comment_step, ih, issuePass]

lemma kind_of_mem_commitPass {cs : List Commit} {e : Event}
    (he : e ∈ commitPass cs) : e.kind = EventKind.commit := by
  unfold commitPass at he
  simp only [List.mem_filterMap, Option.map_eq_some'] at he
  obtain ⟨c, _, a, _, rfl⟩ := he
  rfl

lemma kind_of_mem_issuePass {is : List Issue} {e : Event}
    (he : e ∈ issuePass is) : e.kind = EventKind.issue ∨ e.kind = EventKind.comment := by
  unfold issuePass at he
  simp only [List.mem_flatMap, List.mem_cons, List.mem_map] at he
  obtain ⟨i, _, he | ⟨c, _, rfl⟩⟩ := he
  · subst he; exact Or.inl rfl
  · exact Or.inr rfl

lemma commitPass_eq_nil {cs : List Commit} (h : ∀ c ∈ cs, c.author = none) :
    commitPass cs = [] := by
  unfold commitPass
  rw [List.filterMap_eq_nil_iff]
  intro c hc
  simp [h c hc]

/-! Helper lemma about the aggregator loop: one failing row aborts the call. -/

lemma table_error_of_mem (now : Nat) (repos : List Repo) (r : Repo) (e : GHError)
    (hmem : r ∈ repos) (hfail : repo_info_row now r = .error e) :
    ∃ e', repo_info_to_table now repos = .error e' := by
  induction repos with
  | nil => cases hmem
  | cons r0 rs ih =>
    rcases List.mem_cons.mp hmem with h | h
    · subst h
      exact ⟨e, by simp [repo_info_to_table, hfail]⟩
    · cases h0 : repo_info_row now r0 with
      | error e0 => exact ⟨e0, by simp [repo_info_to_table, h0]⟩
      | ok row =>
        obtain ⟨e', he'⟩ := ih h
        exact ⟨e', by simp [repo_info_to_table, h0, he']⟩

/-! Helper lemmas about the insertion-ordered dict operations. -/

lemma dictGet_dictSet (m : CMap) (k k' : String) (v : List String) :
    dictGet (dictSet m k v) k' = if k' = k then v else dictGet m k' := by
  induction m with
  | nil =>
    by_cases h : k' = k
    · subst h; simp [dictSet, dictGet]
    · simp [dictSet, dictGet, h, Ne.symm h]
  | cons p rest ih =>
    by_cases hp : p.1 = k
    · by_cases h : k' = k
      · subst h; simp [dictSet, dictGet, hp]
      · simp [dictSet, dictGet, hp, h, Ne.symm h]
    · by_cases h2 : p.1 = k'
      · have hk : ¬ k' = k := fun hh => hp (h2.trans hh)
        simp [dictSet, dictGet, hp, h2, hk]
      · simp [dictSet, dictGet, hp, h2, ih]

lemma dictMem_dictSet (m : CMap) (k k' : String) (v : List String) :
    dictMem (dictSet m k v) k' = true ↔ (k' = k ∨ dictMem m k' = true) := by
  induction m with
  | nil =>
    by_cases h : k' = k
    · subst h; simp [dictSet, dictMem]
    · simp [dictSet, dictMem, h, Ne.symm h]
  | cons p rest ih =>
    by_cases hp : p.1 = k
    · by_cases h : k' = k
      · subst h; simp [dictSet, dictMem, hp]
      · simp [dictSet, dictMem, hp, h, Ne.symm h]
    · by_cases h2 : p.1 = k'
      · have hk : ¬ k' = k := fun hh => hp (h2.trans hh)
        simp [dictSet, dictMem, hp, h2, hk]
      · simp [dictSet, dictMem, hp, h2, ih]

lemma dictGet_eq_nil_of_not_mem (m : CMap) (k : String) (h : dictMem m k = false) :
    dictGet m k = [] := by
  induction m with
  | nil => rfl
  | cons p rest ih =>
    by_cases hp : p.1 = k
    · simp [dictMem, hp] at h
    · simp [dictMem, hp] at h
      simp [dictGet, hp, ih h]

lemma dictGet_addTag (m : CMap) (k tag k' : String) :
    dictGet (addTag m k tag) k' =
      if k' = k then (if tag ∈ dictGet m k then dictGet m k else dictGet m k ++ [tag])
      else dictGet m k' := by
  unfold addTag
  by_cases hm : dictMem m k
  · by_cases ht : tag ∈ dictGet m k
    · simp only [hm, ht, if_true]
      by_cases h : k' = k
      · subst h; simp
      · simp [h]
    · simp only [hm, ht, if_true, if_false, dictGet_dictSet]
  · have hnil : dictGet m k = [] := dictGet_eq_nil_of_not_mem m k (by simpa using hm)
    rw [if_neg hm, dictGet_dictSet, hnil]
    simp

lemma mem_dictGet_addTag (m : CMap) (k tag k' t : String) :
    t ∈ dictGet (addTag m k tag) k' ↔ t ∈ dictGet m k' ∨ (k' = k ∧ t = tag) := by
  rw [dictGet_addTag]
  by_cases h : k' = k
  · subst h
    by_cases ht : tag ∈ dictGet m k'
    · simp only [ht, if_true]
      exact ⟨fun hh => Or.inl hh, fun hh => hh.elim id (fun he => by simp [he.2, ht])⟩
    · simp [ht, List.mem_append]
  · simp [h]

lemma nodup_dictGet_addTag (m : CMap) (k tag : String)
    (h : ∀ u, (dictGet m u).Nodup) : ∀ u, (dictGet (addTag m k tag) u).Nodup := by
  intro u
  rw [dictGet_addTag]
  by_cases hu : u = k
  · subst hu
    by_cases ht : tag ∈ dictGet m u
    · simp [ht, h u]
    · simp only [ht, if_false, if_true]
      exact (h u).append (List.nodup_singleton tag)
        (fun a ha hb => by simp at hb; subst hb; exact ht ha)
  · simp [hu, h u]

lemma dictGet_foldl_code (us : List String) (m : CMap) (u : String) :
    dictGet (us.foldl code_step m) u = if u ∈ us then ["code"] else dictGet m u := by
  induction us generalizing m with
  | nil => simp
  | cons v us ih =>
    simp only [List.foldl_cons, code_step]
    rw [ih, dictGet_dictSet]
    by_cases h : u ∈ us
    · simp [h]
    · by_cases h2 : u = v
      · simp [h, h2]
      · simp [h, h2]

lemma dictMem_foldl_code (us : List String) (m : CMap) (u : String) :
    dictMem (us.foldl code_step m) u = true ↔ (u ∈ us ∨ dictMem m u = true) := by
  induction us generalizing m with
  | nil => simp
  | cons v us ih =>
    simp only [List.foldl_cons, code_step]
    rw [ih, dictMem_dictSet]
    by_cases h : u ∈ us
    · simp [h]
    · by_cases h2 : u = v
      · simp [h, h2]
      · simp [h, h2]

lemma mem_dictGet_foldl_comments (cs : List IssueComment) (m : CMap) (u t : String) :
    t ∈ dictGet (cs.foldl contrib_comment_step m) u ↔
      t ∈ dictGet m u ∨ (t = "comments" ∧ ∃ c ∈ cs, c.user = u) := by
  induction cs generalizing m with
  | nil => simp
  | cons c cs ih =>
    simp only [List.foldl_cons, contrib_comment_step]
    rw [ih, mem_dictGet_addTag]
    constructor
    · rintro ((hh | ⟨hu, ht⟩) | ⟨ht, c', hc', hu⟩)
      · exact Or.inl hh
      · exact Or.inr ⟨ht, c, List.mem_cons_self c cs, hu.symm⟩
      · exact Or.inr ⟨ht, c', List.mem_cons_of_mem c hc', hu⟩
    · rintro (hh | ⟨ht, c', hc', hu⟩)
      · exact Or.inl (Or.inl hh)
      · rcases List.mem_cons.mp hc' with h | h
        · subst h; exact Or.inl (Or.inr ⟨hu.symm, ht⟩)
        · exact Or.inr ⟨ht, c', h, hu⟩

lemma mem_dictGet_foldl_issues (is : List Issue) (m : CMap) (u t : String) :
    t ∈ dictGet (is.foldl contrib_issue_step m) u ↔
      t ∈ dictGet m u ∨ (t = "issues" ∧ ∃ i ∈ is, i.user = u) ∨
        (t = "comments" ∧ ∃ i ∈ is, ∃ c ∈ i.comments, c.user = u) := by
  induction is generalizing m with
  | nil => simp
  | cons i is ih =>
    simp only [List.foldl_cons, contrib_issue_step]
    rw [ih, mem_dictGet_foldl_comments, mem_dictGet_addTag]
    constructor
    · rintro (((hh | ⟨hu, ht⟩) | ⟨ht, c, hc, hu⟩) | ⟨ht, i', hi', hu⟩ | ⟨ht, i', hi', c, hc, hu⟩)
      · exact Or.inl hh
      · exact Or.inr (Or.inl ⟨ht, i, List.mem_cons_self i is, hu.symm⟩)
      · exact Or.inr (Or.inr ⟨ht, i, List.mem_cons_self i is, c, hc, hu⟩)
      · exact Or.inr (Or.inl ⟨ht, i', List.mem_cons_of_mem i hi', hu⟩)
      · exact Or.inr (Or.inr ⟨ht, i', List.mem_cons_of_mem i hi', c, hc, hu⟩)
    · rintro (hh | ⟨ht, i', hi', hu⟩ | ⟨ht, i', hi', c, hc, hu⟩)
      · exact Or.inl (Or.inl (Or.inl hh))
      · rcases List.mem_cons.mp hi' with h | h
        · subst h; exact Or.inl (Or.inl (Or.inr ⟨hu.symm, ht⟩))
        · exact Or.inr (Or.inl ⟨ht, i', h, hu⟩)
      · rcases List.mem_cons.mp hi' with h | h
        · subst h; exact Or.inl (Or.inr ⟨ht, c, hc, hu⟩)
        · exact Or.inr (Or.inr ⟨ht, i', h, c, hc, hu⟩)

lemma nodup_dictGet_foldl_comments (cs : List IssueComment) (m : CMap)
    (h : ∀ u, (dictGet m u).Nodup) :
    ∀ u, (dictGet (cs.foldl contrib_comment_step m) u).Nodup := by
  induction cs generalizing m with
  | nil => exact h
  | cons c cs ih =>
    simp only [List.foldl_cons, contrib_comment_step]
    exact ih _ (nodup_dictGet_addTag m c.user "comments" h)

lemma nodup_dictGet_foldl_issues (is : List Issue) (m : CMap)
    (h : ∀ u, (dictGet m u).Nodup) :
    ∀ u, (dictGet (is.foldl contrib_issue_step m) u).Nodup := by
  induction is generalizing m with
  | nil => exact h
  | cons i is ih =>
    simp only [List.foldl_cons, contrib_issue_step]
    exact ih _ (nodup_dictGet_foldl_comments i.comments _
      (nodup_dictGet_addTag m i.user "issues" h))

/-- The row that collecting `rOk` at collection moment 1000000 produces. -/
def rowOk : MetricsRow :=
  { name := "R1"
    description := some "demo"
    url := "u1"
    license := true
    readme := false
    issues := 0
    pulls := 0
    commits := 1
    contributors := ["alice"]
    days_since_last_issue := none
    days_since_last_commit := 11 }

/-- C1: whenever `repo_info_to_table` produces a table, it has exactly one
row per input repository and row `i` is the row built from `repos[i]` — the
sequential loop preserves input order. -/
theorem whatsup_c1_order_preserved (now : Nat) (repos : List Repo) (t : List MetricsRow)
    (h : repo_info_to_table now repos = .ok t) :
    t.length = repos.length ∧
      ∀ i (hi : i < repos.length) (hi' : i < t.length),
        repo_info_row now (repos.get ⟨i, hi⟩) = .ok (t.get ⟨i, hi'⟩) := by
  induction repos generalizing t with
  | nil =>
    have ht : t = [] := by simpa [repo_info_to_table] using h.symm
    subst ht
    exact ⟨rfl, fun i hi _ => absurd hi (Nat.not_lt_zero i)⟩
  | cons r rs ih =>
    cases h0 : repo_info_row now r with
    | error e => simp [repo_info_to_table, h0] at h
    | ok row =>
      cases h1 : repo_info_to_table now rs with
      | error e => simp [repo_info_to_table, h0, h1] at h
      | ok rest =>
        simp only [repo_info_to_table, h0, h1] at h
        have ht : t = row :: rest := by simpa using h.symm
        subst ht
        obtain ⟨hlen, hget⟩ := ih rest h1
        refine ⟨by simp [hlen], ?_⟩
        intro i hi hi'
        cases i with
        | zero => simpa using h0
        | succ j =>
          have hj : j < rs.length := by simpa using hi
          have hj' : j < rest.length := by simpa using hi'
          simpa using hget j hj hj'

/-- C1 witness: a one-repository table, evaluated concretely. -/
theorem whatsup_c1_witness :
    [rowOk].length = [rOk].length ∧ repo_info_row 1000000 rOk = .ok rowOk := by
  have h := whatsup_c1_order_preserved 1000000 [rOk] [rowOk] rfl
  refine ⟨h.1, ?_⟩
  have h2 := h.2 0 (by decide) (by decide)
  simpa using h2

/-- C2 counterexample: `rNoCommits` has zero issues, yet its row is not
produced at all — the later `repo.get_commits()[0]` raises `IndexError`, so
neither the `"N/A"` sentinel nor any other field of the row survives, and
the whole table aborts. -/
theorem whatsup_c2_counterexample :
    rNoCommits.get_issues = .ok [] ∧
      repo_info_row 1000000 rNoCommits = .error GHError.indexError ∧
      repo_info_to_table 1000000 [rNoCommits] = .error GHError.indexError :=
  ⟨rfl, rfl, rfl⟩

/-- C2 (amended): for a repository with zero issues, at least one commit,
and otherwise successful reads, the row is produced with
`days_since_last_issue` equal to the `"N/A"` sentinel and every other field
populated. -/
theorem whatsup_c2_empty_issue_sentinel (now : Nat) (repo : Repo) (ps : List Unit)
    (us : List String) (c : Commit) (cs : List Commit)
    (hp : repo.get_pulls = .ok ps) (hc : repo.get_commits = .ok (c :: cs))
    (hu : repo.get_contributors = .ok us) (hi : repo.get_issues = .ok []) :
    repo_info_row now repo =
      .ok { name := repo.name
            description := repo.description
            url := repo.url
            license := has_file repo "LICENSE"
            readme := has_file repo "README.md"
            issues := repo.open_issues_count
            pulls := ps.length
            commits := (c :: cs).length
            contributors := us
            days_since_last_issue := none
            days_since_last_commit := days_between now c.last_modified } := by
  unfold repo_info_row
  rw [hp, hc, hu, hi]

/-- C2 witness: the amended claim evaluated on `rOk`. -/
theorem whatsup_c2_witness :
    repo_info_row 1000000 rOk =
      .ok { name := rOk.name
            description := rOk.description
            url := rOk.url
            license := has_file rOk "LICENSE"
            readme := has_file rOk "README.md"
            issues := rOk.open_issues_count
            pulls := ([] : List Unit).length
            commits := [({ author := some "alice", last_modified := 100 } : Commit)].length
            contributors := ["alice"]
            days_since_last_issue := none
            days_since_last_commit := days_between 1000000 100 } :=
  whatsup_c2_empty_issue_sentinel 1000000 rOk [] ["alice"]
    { author := some "alice", last_modified := 100 } [] rfl rfl rfl rfl

/-- C3: if building the row of any repository in the input raises (any
failure other than the recovered empty-issue case, which is not a row
failure at all), the whole aggregate fails — no partial table is returned. -/
theorem whatsup_c3_all_or_nothing (now : Nat) (repos : List Repo) (r : Repo)
    (e : GHError) (hmem : r ∈ repos) (hfail : repo_info_row now r = .error e) :
    ∃ e', repo_info_to_table now repos = .error e' :=
  table_error_of_mem now repos r e hmem hfail

/-- C3 witness: a rate-limited repository aborts a two-repository batch. -/
theorem whatsup_c3_witness :
    (repo_info_to_table 1000000 [rOk, rRateLimited]).isOk = false := by
  obtain ⟨e', he'⟩ := whatsup_c3_all_or_nothing 1000000 [rOk, rRateLimited]
    rRateLimited GHError.rateLimit (List.Mem.tail _ (List.Mem.head _)) rfl
  rw [he']
  rfl

/-- C4: `has_file` returns `true` exactly when the content fetch succeeds
and `false` on every fetch failure; being a total function into `Bool`, it
never propagates an error to its caller. -/
theorem whatsup_c4_presence_check (repo : Repo) (filename : String) :
    has_file repo filename = (repo.get_contents filename).isOk := by
  cases h : repo.get_contents filename <;> simp [has_file, h, Except.isOk, Except.toBool]

/-- C5: commits whose author cannot be resolved are skipped one by one; when
every author is unresolvable the extractor still succeeds, yields zero
commit-kind records, and yields the full issue/comment pass. -/
theorem whatsup_c5_skip_unresolvable (r : Repo) (cs : List Commit) (is : List Issue)
    (hc : r.get_commits = .ok cs) (hall : ∀ c ∈ cs, c.author = none)
    (hi : r.get_issues = .ok is) :
    get_all_commit_issue_comments_info r = .ok (issuePass is) ∧
      ∀ e ∈ issuePass is, e.kind ≠ EventKind.commit := by
  constructor
  · unfold get_all_commit_issue_comments_info
    rw [hc, hi]
    simp only [foldl_issue_step, foldl_commit_step, commitPass_eq_nil hall, List.nil_append]
  · intro e he hk
    rcases kind_of_mem_issuePass he with h | h <;> rw [hk] at h <;> cases h

/-- C5 witness: `rNoAuthors` has two commits, both with an unresolvable
author, and one issue with two comments. -/
theorem whatsup_c5_witness :
    get_all_commit_issue_comments_info rNoAuthors = .ok (issuePass [issBob]) ∧
      ∀ e ∈ issuePass [issBob], e.kind ≠ EventKind.commit :=
  whatsup_c5_skip_unresolvable rNoAuthors
    [{ author := none, last_modified := 5 }, { author := none, last_modified := 6 }]
    [issBob] rfl (by decide) rfl

/-- C6: the extractor's output is the commit pass concatenated with the
issue/comment pass, each in platform enumeration order; within the second
pass each issue's creation event is immediately followed by that issue's
comment events (that is the shape of `issuePass`), and no timestamp sort is
applied. -/
theorem whatsup_c6_two_pass_order (r : Repo) (cs : List Commit) (is : List Issue)
    (hc : r.get_commits = .ok cs) (hi : r.get_issues = .ok is) :
    get_all_commit_issue_comments_info r = .ok (commitPass cs ++ issuePass is) ∧
      (∀ e ∈ commitPass cs, e.kind = EventKind.commit) ∧
      (∀ e ∈ issuePass is, e.kind = EventKind.issue ∨ e.kind = EventKind.comment) := by
  refine ⟨?_, fun e he => kind_of_mem_commitPass he, fun e he => kind_of_mem_issuePass he⟩
  unfold get_all_commit_issue_comments_info
  rw [hc, hi]
  simp only [foldl_issue_step, foldl_commit_step, List.nil_append]

/-- C6 witness: `rMixed` has one resolvable-author commit, one skipped
commit, and one issue with two comments. -/
theorem whatsup_c6_witness :
    get_all_commit_issue_comments_info rMixed =
      .ok (commitPass [{ author := some "alice", last_modified := 9 },
                       { author := none, last_modified := 8 }] ++ issuePass [issBob]) :=
  (whatsup_c6_two_pass_order rMixed
    [{ author := some "alice", last_modified := 9 }, { author := none, last_modified := 8 }]
    [issBob] rfl rfl).1

/-- C7: with `inc_non_code = false`, `get_all_contributors` returns exactly
the code contributors, each mapped to the single tag list `["code"]`; with
`inc_non_code = true`, a login's tag list contains `"code"` iff it is a code
contributor, `"issues"` iff it opened some issue, `"comments"` iff it
commented somewhere (so a non-code user who opened an issue and commented
gets exactly the channel set {issues, comments}), and no tag list ever holds
a duplicate. -/
theorem whatsup_c7_contributors (r : Repo) (us : List String) (is : List Issue)
    (hus : r.get_contributors = .ok us) (his : r.get_issues = .ok is) :
    (∀ m, get_all_contributors r false = .ok m →
      (∀ u, dictGet m u = if u ∈ us then ["code"] else []) ∧
        (∀ u, dictMem m u = true ↔ u ∈ us)) ∧
    (∀ m, get_all_contributors r true = .ok m →
      (∀ u t, t ∈ dictGet m u ↔
        ((t = "code" ∧ u ∈ us) ∨
          (t = "issues" ∧ ∃ i ∈ is, i.user = u) ∨
          (t = "comments" ∧ ∃ i ∈ is, ∃ c ∈ i.comments, c.user = u))) ∧
        (∀ u, (dictGet m u).Nodup)) ∧
    (get_all_contributors r false).isOk = true ∧
    (get_all_contributors r true).isOk = true := by
  have hbase : ∀ u, dictGet (us.foldl code_step []) u = if u ∈ us then ["code"] else [] := by
    intro u
    rw [dictGet_foldl_code]
    by_cases h : u ∈ us <;> simp [h, dictGet]
  have hbasemem : ∀ u t, t ∈ dictGet (us.foldl code_step []) u ↔ (t = "code" ∧ u ∈ us) := by
    intro u t
    rw [hbase]
    by_cases h : u ∈ us <;> simp [h, and_comm]
  refine ⟨?_, ?_, ?_, ?_⟩
  · intro m hm
    unfold get_all_contributors at hm
    rw [hus] at hm
    simp only [Bool.false_eq_true, if_false, Except.ok.injEq] at hm
    subst hm
    constructor
    · exact hbase
    · intro u
      rw [dictMem_foldl_code]
      simp [dictMem]
  · intro m hm
    unfold get_all_contributors at hm
    rw [hus] at hm
    simp only [if_true] at hm
    rw [his] at hm
    simp only [Except.ok.injEq] at hm
    subst hm
    constructor
    · intro u t
      rw [mem_dictGet_foldl_issues, hbasemem]
    · refine nodup_dictGet_foldl_issues is _ (fun u => ?_)
      rw [hbase]
      by_cases h : u ∈ us <;> simp [h]
  · unfold get_all_contributors
    rw [hus]
    rfl
  · unfold get_all_contributors
    rw [hus]
    simp only [if_true]
    rw [his]
    rfl

/-- C7 witness: on `rMixed`, alice is the sole code contributor, while bob
opened the issue and commented but never contributed code. -/
theorem whatsup_c7_witness :
    dictGet [("alice", ["code"])] "bob" = [] ∧
      ("issues" ∈ dictGet [("alice", ["code", "comments"]), ("bob", ["issues", "comments"])] "bob") ∧
      ("comments" ∈ dictGet [("alice", ["code", "comments"]), ("bob", ["issues", "comments"])] "bob") ∧
      ¬ ("code" ∈ dictGet [("alice", ["code", "comments"]), ("bob", ["issues", "comments"])] "bob") ∧
      (dictGet [("alice", ["code", "comments"]), ("bob", ["issues", "comments"])] "bob").Nodup := by
  have h := whatsup_c7_contributors rMixed ["alice"] [issBob] rfl rfl
  have hfalse := h.1 [("alice", ["code"])] rfl
  have htrue := h.2.1 [("alice", ["code", "comments"]), ("bob", ["issues", "comments"])] rfl
  refine ⟨?_, ?_, ?_, ?_, htrue.2 "bob"⟩
  · rw [hfalse.1 "bob"]
    simp
  · exact (htrue.1 "bob" "issues").mpr (by simp [issBob])
  · exact (htrue.1 "bob" "comments").mpr (by simp [issBob, cmtBob])
  · intro hcontra
    have := (htrue.1 "bob" "code").mp hcontra
    simp [issBob, cmtBob, cmtAlice] at this

/-- C8 (code bug): the `--all` loop's existence check is `Path.isfile(...)`,
but `pathlib.Path` has no attribute `isfile`, so the first iteration raises
`AttributeError` regardless of which output files exist — no repository is
ever skipped or processed. -/
theorem whatsup_c8_all_mode_crashes (fs : List String) (out_folder : String)
    (r : Repo) (rs : List Repo) :
    all_mode_run fs out_folder (r :: rs) = .error GHError.attributeError := by
  rfl

/-- C10: with the other reads succeeding, a repository with at least one
commit never reaches the error branch of the final indexing step, while a
repository with zero commits makes `repo.get_commits()[0]` raise
`IndexError`, its row fail, and every table containing it fail — even when
the empty-issue recovery already succeeded. -/
theorem whatsup_c10_zero_commit_abort (now : Nat) (r : Repo) (ps : List Unit)
    (us : List String) (is : List Issue)
    (hp : r.get_pulls = .ok ps) (hu : r.get_contributors = .ok us)
    (hi : r.get_issues = .ok is) :
    (r.get_commits = .ok [] →
      repo_info_row now r = .error GHError.indexError ∧
        ∀ repos : List Repo, r ∈ repos → (repo_info_to_table now repos).isOk = false) ∧
    (∀ c cs, r.get_commits = .ok (c :: cs) →
      (repo_info_row now r).isOk = true) := by
  constructor
  · intro hc
    have hrow : repo_info_row now r = .error GHError.indexError := by
      unfold repo_info_row
      rw [hp, hc, hu, hi]
    refine ⟨hrow, fun repos hmem => ?_⟩
    obtain ⟨e', he'⟩ := table_error_of_mem now repos r _ hmem hrow
    rw [he']
    rfl
  · intro c cs hc
    unfold repo_info_row
    rw [hp, hc, hu, hi]
    rfl

/-- C10 witness: the zero-commit repository `rNoCommits` (whose empty-issue
recovery succeeded) fails and poisons its table. -/
theorem whatsup_c10_witness :
    repo_info_row 1000000 rNoCommits = .error GHError.indexError ∧
      (repo_info_to_table 1000000 [rNoCommits]).isOk = false := by
  have h := (whatsup_c10_zero_commit_abort 1000000 rNoCommits [] [] [] rfl rfl rfl).1 rfl
  exact ⟨h.1, h.2 [rNoCommits] (List.Mem.head _)⟩

end Whatsup
